import Mathlib

/-!
Verification of the AutoRFCs polling script (`src/main.py`).

The script is a linear pipeline: fetch open pull requests from the GitHub
API, diff the fetched snapshot against a persisted JSON cache file, persist
the fetched snapshot, and post one tweet per newly added pull request with a
10-second sleep between consecutive tweets.

We shallowly embed the pipeline:
* a `PRRecord` is the normalized record built by `pull_requests`;
* a `Snapshot` is an association list from string ids to records (the JSON
  object persisted in `../data/pull_requests.json`; JSON round-tripping turns
  the integer GitHub ids into strings);
* the DeepDiff call is modelled at key granularity: the categories
  `dictionary_item_added` / `dictionary_item_removed` / `values_changed`
  collect the keys only in the new data, only in the cached data, and in both
  with different field values, each rendered as the DeepDiff path
  `root['<key>']`; diffing a dict against `None` (a failed fetch) yields a
  `type_changes` entry, as DeepDiff does;
* the cache file is modelled at value level for the orchestrator (`none` =
  file absent, `some none` = file holds JSON `null`, `some (some s)` = file
  holds snapshot `s`), and at character level (a verified printer/parser
  pair for the `json.dump`/`json.load` calls) for the save/load roundtrip.
-/

/-- Normalized pull-request record built by `pull_requests` in `src/main.py`:
title, number, html url, author profile url, creation timestamp. -/
structure PRRecord where
  title : String
  number : Int
  url : String
  author : String
  created_at : String
deriving DecidableEq, Repr

/-- A snapshot is the persisted JSON object: an association list from
pull-request id (a decimal string after JSON round-tripping) to its record. -/
abbrev Snapshot := List (String × PRRecord)

/-- Keys of a snapshot, in representation order. -/
def skeys (s : Snapshot) : List String := s.map Prod.fst

/-- Python dict indexing / `dict.get` on an association list: first binding of
the key wins (a dict has unique keys, so on `Nodup` key lists this is the
binding). -/
def alookup {β : Type} (k : String) : List (String × β) → Option β
  | [] => none
  | (k', v) :: rest => if k' = k then some v else alookup k rest

/-- DeepDiff path for a top-level dictionary key: `root['<key>']`. -/
def diffPath (k : String) : String := "root['" ++ k ++ "']"

/-- Keys present in `cur` but not in `prev`: DeepDiff `dictionary_item_added`. -/
def addedKeys (prev cur : Snapshot) : List String :=
  (skeys cur).filter (fun k => !(skeys prev).contains k)

/-- Keys present in `prev` but not in `cur`: DeepDiff `dictionary_item_removed`. -/
def removedKeys (prev cur : Snapshot) : List String :=
  (skeys prev).filter (fun k => !(skeys cur).contains k)

/-- Keys present in both snapshots whose associated records differ:
DeepDiff reports these under `values_changed` (at field-level paths; we record
the classification at key granularity, which is what the spec and the
orchestrator use). -/
def changedKeys (prev cur : Snapshot) : List String :=
  (skeys cur).filter
    (fun k => (skeys prev).contains k && decide (alookup k cur ≠ alookup k prev))

/-- Result of `json.loads(deepdiff.DeepDiff(prev, cur, ignore_order=True).to_json())`
for two dicts: a JSON object holding only the nonempty categories, each a list
of DeepDiff paths. Modelled as an association list (category name, paths). -/
def deepDiff (prev cur : Snapshot) : List (String × List String) :=
  (if addedKeys prev cur ≠ [] then
    [("dictionary_item_added", (addedKeys prev cur).map diffPath)] else []) ++
  (if removedKeys prev cur ≠ [] then
    [("dictionary_item_removed", (removedKeys prev cur).map diffPath)] else []) ++
  (if changedKeys prev cur ≠ [] then
    [("values_changed", (changedKeys prev cur).map diffPath)] else [])

/-- Content of the cache file as a JSON value: `none` is JSON `null` (what
`json.dump(None, ...)` writes), `some s` is a snapshot object. -/
abbrev CacheVal := Option Snapshot

/-- DeepDiff on cache values: comparing a dict with `None` (either way) is a
root-level type change; `DeepDiff(None, None)` is empty. -/
def deepDiffVal (prev cur : CacheVal) : List (String × List String) :=
  match prev, cur with
  | some p, some c => deepDiff p c
  | some _, none => [("type_changes", ["root"])]
  | none, some _ => [("type_changes", ["root"])]
  | none, none => []

/-- CacheManager.get_cache_difference: if the cache file is absent, seed it
with `data` and return the empty diff; otherwise load the cached value and
return DeepDiff(cached, data). Returns the (possibly updated) store and the
diff result. -/
def get_cache_difference (store : Option CacheVal) (data : CacheVal) :
    Option CacheVal × List (String × List String) :=
  match store with
  | none => (some data, [])
  | some cached => (some cached, deepDiffVal cached data)

example : get_cache_difference none (some [("1", ⟨"t", 1, "u", "a", "c"⟩)]) =
    (some (some [("1", ⟨"t", 1, "u", "a", "c"⟩)]), []) := rfl

example :
    deepDiff [("1", ⟨"t", 1, "u", "a", "c"⟩)]
      [("1", ⟨"t", 1, "u", "a", "c"⟩), ("2", ⟨"s", 2, "v", "b", "d"⟩)] =
    [("dictionary_item_added", ["root['2']"])] := by decide

/-- Python `str.strip(chars)` on character lists: remove from both ends every
character that belongs to `set`. -/
def stripChars (set : List Char) (s : List Char) : List Char :=
  ((s.dropWhile set.contains).reverse.dropWhile set.contains).reverse

/-- Python `str.replace(old, "")` for a two-character pattern `a ++ b`:
delete every non-overlapping occurrence, scanning left to right (the shape of
both `replace` calls in `check_for_new_pr` line 115). -/
def replaceDel2 (a b : Char) : List Char → List Char
  | [] => []
  | [c] => [c]
  | c :: d :: rest =>
    if c = a && d = b then replaceDel2 a b rest
    else c :: replaceDel2 a b (d :: rest)

/-- The key-recovery pipeline of `check_for_new_pr` line 115:
`index.strip('root').replace("['", "").replace("']", "")`. -/
def parseIndex (s : String) : String :=
  String.mk (replaceDel2 '\'' ']'
    (replaceDel2 '[' '\'' (stripChars ['r', 'o', 't'] s.data)))

example : parseIndex "root['1577904865']" = "1577904865" := by decide

/-- Python `in` on strings (substring test), over character lists. -/
def hasSubList (pat : List Char) : List Char → Bool
  | [] => pat.isEmpty
  | c :: rest => pat.isPrefixOf (c :: rest) || hasSubList pat rest

/-- Python `pat in s` for strings. -/
def containsSub (pat s : String) : Bool := hasSubList pat.data s.data

example : containsSub "added" "dictionary_item_added" = true := by decide
example : containsSub "added" "dictionary_item_removed" = false := by decide
example : containsSub "added" "values_changed" = false := by decide
example : containsSub "added" "type_changes" = false := by decide

/-- The tweet template of `check_for_new_pr` lines 118-125 (an f-string with a
leading newline and the closing-delimiter indentation of the source). -/
def tweetText (data : PRRecord) : String :=
  "\nA new @Polkadot RFC has been raised! #RFC" ++ toString data.number ++
  " #Polkadot\n\nTitle: " ++ data.title ++ "\nAuthor: " ++ data.author ++
  "\n\n" ++ data.url ++ "\n                    "

/-- Outcome of the HTTP interaction inside one `post_tweet` call: the request
succeeds with a response body, or raises a `ValueError`, or raises any other
exception (auth failure, rate limit, network error). -/
inductive TweetOutcome where
  | success (responseText : String)
  | valueError (msg : String)
  | otherError (msg : String)

/-- Model of `post_tweet` (lines 51-66): on success it returns the response
text; both `except` arms log and return `None`. -/
def post_tweet (outcome : TweetOutcome) : Option String :=
  match outcome with
  | .success t => some t
  | .valueError _ => none
  | .otherError _ => none

/-- The notification loop of `check_for_new_pr` (lines 114-131): for each
DeepDiff path in `dictionary_item_added`, recover the key via `parseIndex`,
index the fetched snapshot with it (`none` models the `KeyError` crash when
the key is absent), craft the tweet, call `post_tweet` (its return value is
discarded by the source), and `time.sleep(10)`. Produces the timed list of
posted tweet texts: `clock` is the instant of the `post_tweet` call and the
sleep advances the clock by 10 before the next call. `idx` numbers the calls
so each can receive its own outcome. -/
def notifyLoop (cur : Snapshot) (outcomes : Nat → TweetOutcome) :
    List String → Nat → Nat → Option (List (Nat × String))
  | [], _, _ => some []
  | p :: rest, idx, clock =>
    match alookup (parseIndex p) cur with
    | none => none
    | some data =>
      let _response := post_tweet (outcomes idx)
      (notifyLoop cur outcomes rest (idx + 1) (clock + 10)).map
        (fun tl => (clock, tweetText data) :: tl)

/-- Model of `check_for_new_pr` (lines 103-131). `fetched` is the value
returned by `pull_requests` (`none` on fetch failure — the source never checks
for it), `store` is the cache-file state, `t0` the clock at loop entry.
Returns `none` when the Python code would raise (KeyError / TypeError while
indexing `pull_request_info`), otherwise the final cache-file state and the
timed tweets. Line 107 diffs (seeding the store when the file is absent),
line 108 saves `fetched` unconditionally, lines 110-131 iterate the diff
result and notify for the key containing `'added'`. -/
def check_for_new_pr (fetched : CacheVal) (store : Option CacheVal)
    (outcomes : Nat → TweetOutcome) (t0 : Nat) :
    Option (Option CacheVal × List (Nat × String)) :=
  let diffres := get_cache_difference store fetched
  let result := diffres.2
  let store2 : Option CacheVal := some fetched
  if result.isEmpty then some (store2, [])
  else
    match result.find? (fun e => containsSub "added" e.1) with
    | none => some (store2, [])
    | some _ =>
      match alookup "dictionary_item_added" result with
      | none => none
      | some paths =>
        match fetched with
        | none => none
        | some cursnap =>
          (notifyLoop cursnap outcomes paths 0 t0).map
            (fun tr => (store2, tr))

/-- Upstream API item for one open pull request, before normalization. -/
structure APIPullRequest where
  id : Nat
  title : String
  number : Int
  html_url : String
  user_html_url : String
  created_at : String

/-- Ordinary Python dict assignment `prs[k] = v`: overwrite in place if the
key is present, else append. -/
def dinsert (k : String) (v : PRRecord) : Snapshot → Snapshot
  | [] => [(k, v)]
  | (k', v') :: rest =>
    if k' = k then (k, v) :: rest else (k', v') :: dinsert k v rest

/-- The snapshot built by `pull_requests` on a 200 response (lines 86-97):
key each item by its id, then `json.loads(json.dumps(prs, sort_keys=True))`
stringifies the integer ids and leaves the object sorted by key. -/
def buildSnapshot (items : List APIPullRequest) : Snapshot :=
  (items.foldl
    (fun acc pr =>
      dinsert (toString pr.id)
        ⟨pr.title, pr.number, pr.html_url, pr.user_html_url, pr.created_at⟩ acc)
    []).mergeSort (fun a b => a.1 ≤ b.1)

/-- Model of `pull_requests` (lines 69-100): a 200 status yields the
normalized snapshot, any other status logs and returns `None`. -/
def pull_requests (status : Nat) (items : List APIPullRequest) : CacheVal :=
  if status = 200 then some (buildSnapshot items) else none

/-- Tweet trace of one cycle (empty when the cycle crashed). -/
def tweetTrace (fetched : CacheVal) (store : Option CacheVal)
    (outcomes : Nat → TweetOutcome) (t0 : Nat) : List (Nat × String) :=
  ((check_for_new_pr fetched store outcomes t0).map Prod.snd).getD []

/-- Instants of the `post_tweet` calls of one cycle. -/
def tweetTimes (fetched : CacheVal) (store : Option CacheVal)
    (outcomes : Nat → TweetOutcome) (t0 : Nat) : List Nat :=
  (tweetTrace fetched store outcomes t0).map Prod.fst

/-- Sample record PR_A used in the spec's concrete test cases. -/
def PR_A : PRRecord :=
  ⟨"Treasury track", 1, "https://github.com/polkadot-fellows/RFCs/pull/1",
    "https://github.com/alice", "2023-06-01T00:00:00Z"⟩

/-- Sample record PR_B used in the spec's concrete test cases. -/
def PR_B : PRRecord :=
  ⟨"Staking rework", 2, "https://github.com/polkadot-fellows/RFCs/pull/2",
    "https://github.com/bob", "2023-06-02T00:00:00Z"⟩

/-- Sample record: PR_A with a different title (same id in the "changed"
test case). -/
def PR_A2 : PRRecord :=
  ⟨"Treasury track v2", 1, "https://github.com/polkadot-fellows/RFCs/pull/1",
    "https://github.com/alice", "2023-06-01T00:00:00Z"⟩

@[simp] lemma containsSub_added_added :
    containsSub "added" "dictionary_item_added" = true := by decide

@[simp] lemma containsSub_added_removed :
    containsSub "added" "dictionary_item_removed" = false := by decide

@[simp] lemma containsSub_added_changed :
    containsSub "added" "values_changed" = false := by decide

@[simp] lemma containsSub_added_type_changes :
    containsSub "added" "type_changes" = false := by decide

/-- C2: on the first-ever run (no persisted state file), the cycle produces
zero notifications regardless of the fetched snapshot `D`, and the persisted
state afterwards is exactly `D` (`get_cache_difference` seeds the absent store
and returns the empty delta). -/
theorem first_run_silent_and_seeds (D : Snapshot) (outcomes : Nat → TweetOutcome)
    (t0 : Nat) :
    check_for_new_pr (some D) none outcomes t0 = some (some (some D), []) ∧
    get_cache_difference none (some D) = (some (some D), []) := by
  constructor
  · rfl
  · rfl

/-- C1 (divergence witness): a cycle whose fetch fails (`pull_requests`
returns `None`, e.g. HTTP 403) while the cache file holds the snapshot
`{"1": PR_A}` does produce zero notifications, but it does NOT leave the
persisted snapshot unchanged: line 108 unconditionally saves the fetch result,
overwriting the cache file with JSON `null` (`some none`), which differs from
its previous content. -/
theorem fetch_failure_overwrites_store (outcomes : Nat → TweetOutcome) (t0 : Nat) :
    check_for_new_pr (pull_requests 403 []) (some (some [("1", PR_A)])) outcomes t0
      = some (some none, []) ∧
    (some none : Option CacheVal) ≠ some (some [("1", PR_A)]) := by
  refine ⟨rfl, by decide⟩

/-- C4: diffing a snapshot against itself yields the empty delta, and
`get_cache_difference` returns the empty result when the persisted state
structurally equals the provided data. -/
theorem diff_self_empty (A : Snapshot) :
    deepDiff A A = [] ∧
    get_cache_difference (some (some A)) (some A) = (some (some A), []) := by
  have hadd : addedKeys A A = [] := by
    refine List.filter_eq_nil_iff.mpr ?_
    intro k hk
    simp
    exact hk
  have hrem : removedKeys A A = [] := by
    refine List.filter_eq_nil_iff.mpr ?_
    intro k hk
    simp
    exact hk
  have hchg : changedKeys A A = [] := by
    refine List.filter_eq_nil_iff.mpr ?_
    intro k _
    simp
  refine ⟨?_, ?_⟩
  · simp [deepDiff, hadd, hrem, hchg]
  · simp [get_cache_difference, deepDiffVal, deepDiff, hadd, hrem, hchg]

/-- C3: the diff classifies each key present only in `cur` as added, each key
present only in `prev` as removed, and each key present in both whose record
differs as changed; in particular, for previous `{1: PR_A}` and current
`{1: PR_A, 2: PR_B}` the delta is exactly `added = {2}`, and for previous
`{1: PR_A}` and current `{1: PR_A2}` (same id, different title) the delta is
exactly `changed = {1}`. -/
theorem diff_classification :
    (∀ (prev cur : Snapshot) (k : String),
      k ∈ addedKeys prev cur ↔ k ∈ skeys cur ∧ k ∉ skeys prev) ∧
    (∀ (prev cur : Snapshot) (k : String),
      k ∈ removedKeys prev cur ↔ k ∈ skeys prev ∧ k ∉ skeys cur) ∧
    (∀ (prev cur : Snapshot) (k : String),
      k ∈ changedKeys prev cur ↔
        k ∈ skeys cur ∧ k ∈ skeys prev ∧ alookup k cur ≠ alookup k prev) ∧
    deepDiff [("1", PR_A)] [("1", PR_A), ("2", PR_B)] =
      [("dictionary_item_added", ["root['2']"])] ∧
    deepDiff [("1", PR_A)] [("1", PR_A2)] =
      [("values_changed", ["root['1']"])] := by
  refine ⟨?_, ?_, ?_, by decide, by decide⟩
  · intro prev cur k
    simp [addedKeys, List.mem_filter]
  · intro prev cur k
    simp [removedKeys, List.mem_filter]
  · intro prev cur k
    simp [changedKeys, List.mem_filter, and_assoc]

lemma deepDiff_find_added_none (prev cur : Snapshot)
    (h : addedKeys prev cur = []) :
    (deepDiff prev cur).find? (fun e => containsSub "added" e.1) = none := by
  simp [deepDiff, h]

/-- C6: a cycle whose delta contains no added entries (only removed or
changed ones) generates zero notifications: only added entries drive
`post_tweet` calls. The final store still holds the fetched snapshot, since
line 108 saves unconditionally. -/
theorem no_added_no_tweets (prev cur : Snapshot) (outcomes : Nat → TweetOutcome)
    (t0 : Nat) (h : addedKeys prev cur = []) :
    check_for_new_pr (some cur) (some (some prev)) outcomes t0 =
      some (some (some cur), []) := by
  have hf := deepDiff_find_added_none prev cur h
  by_cases he : (deepDiff prev cur).isEmpty <;>
    simp [check_for_new_pr, get_cache_difference, deepDiffVal, he, hf]

/-- Witness for C6 at the spec's concrete test case: previous `{1: PR_A}`,
current `{}` (the delta is `removed = {1}`) produces zero notifications. -/
theorem no_added_no_tweets_witness :
    addedKeys [("1", PR_A)] [] = [] ∧
    check_for_new_pr (some []) (some (some [("1", PR_A)]))
      (fun _ => TweetOutcome.success "ok") 0 = some (some (some []), []) :=
  ⟨by decide,
    no_added_no_tweets [("1", PR_A)] [] (fun _ => TweetOutcome.success "ok") 0
      (by decide)⟩

lemma alookup_perm {β : Type} {l₁ l₂ : List (String × β)} (hp : l₁.Perm l₂)
    (hnd : (l₁.map Prod.fst).Nodup) (k : String) :
    alookup k l₁ = alookup k l₂ := by
  induction hp with
  | nil => rfl
  | cons x hp' ih =>
    obtain ⟨k', v⟩ := x
    simp only [List.map_cons, List.nodup_cons] at hnd
    simp only [alookup]
    split
    · rfl
    · exact ih hnd.2
  | swap x y l =>
    obtain ⟨a, u⟩ := x
    obtain ⟨b, v⟩ := y
    have hab : b ≠ a := by
      simp only [List.map_cons, List.nodup_cons, List.mem_cons] at hnd
      exact fun h => hnd.1 (Or.inl h)
    simp only [alookup]
    by_cases ha : a = k <;> by_cases hb : b = k
    · exact absurd (hb.trans ha.symm) hab
    · simp [ha, hb]
    · simp [ha, hb]
    · simp [ha, hb]
  | trans hp₁ hp₂ ih₁ ih₂ =>
    have hnd₂ := (hp₁.map Prod.fst).nodup_iff.mp hnd
    exact (ih₁ hnd).trans (ih₂ hnd₂)

/-- C5: the delta is independent of the ordering of keys in the previous
snapshot's underlying representation: re-serializing it with its (distinct)
keys in any other order leaves the added and changed key sets literally equal
and the removed key set equal up to the order in which it is enumerated. -/
theorem diff_order_independent (prev₁ prev₂ cur : Snapshot)
    (hp : prev₁.Perm prev₂) (hnd : (skeys prev₁).Nodup) :
    addedKeys prev₁ cur = addedKeys prev₂ cur ∧
    (removedKeys prev₁ cur).Perm (removedKeys prev₂ cur) ∧
    changedKeys prev₁ cur = changedKeys prev₂ cur := by
  have hmem : ∀ k, k ∈ skeys prev₁ ↔ k ∈ skeys prev₂ := fun k =>
    (hp.map Prod.fst).mem_iff
  have hc : ∀ k, (skeys prev₁).contains k = (skeys prev₂).contains k := by
    intro k
    by_cases hk : k ∈ skeys prev₁
    · simp [hk, (hmem k).mp hk]
    · have hk2 : k ∉ skeys prev₂ := fun h => hk ((hmem k).mpr h)
      simp [hk, hk2]
  have hl : ∀ k, alookup k prev₁ = alookup k prev₂ := alookup_perm hp hnd
  refine ⟨?_, ?_, ?_⟩
  · exact List.filter_congr fun k _ => by rw [hc k]
  · exact (hp.map Prod.fst).filter _
  · exact List.filter_congr fun k _ => by rw [hc k, hl k]

/-- Witness for C5: reversing the two-entry previous snapshot
`{1: PR_A, 2: PR_B}` leaves the delta against `{1: PR_A2, 3: PR_B}`
unchanged. -/
theorem diff_order_independent_witness :
    addedKeys [("1", PR_A), ("2", PR_B)] [("1", PR_A2), ("3", PR_B)] =
      addedKeys [("2", PR_B), ("1", PR_A)] [("1", PR_A2), ("3", PR_B)] ∧
    (removedKeys [("1", PR_A), ("2", PR_B)] [("1", PR_A2), ("3", PR_B)]).Perm
      (removedKeys [("2", PR_B), ("1", PR_A)] [("1", PR_A2), ("3", PR_B)]) ∧
    changedKeys [("1", PR_A), ("2", PR_B)] [("1", PR_A2), ("3", PR_B)] =
      changedKeys [("2", PR_B), ("1", PR_A)] [("1", PR_A2), ("3", PR_B)] :=
  diff_order_independent _ _ _ (by decide) (by decide)

lemma notifyLoop_times (cur : Snapshot) (outcomes : Nat → TweetOutcome) :
    ∀ (paths : List String) (idx clock : Nat) (tl : List (Nat × String)),
    notifyLoop cur outcomes paths idx clock = some tl →
    ∀ j, j < tl.length → (tl.map Prod.fst).getD j 0 = clock + 10 * j := by
  intro paths
  induction paths with
  | nil =>
    intro idx clock tl h j hj
    simp [notifyLoop] at h
    subst h
    simp at hj
  | cons p rest ih =>
    intro idx clock tl h j hj
    simp only [notifyLoop] at h
    cases hl : alookup (parseIndex p) cur with
    | none => rw [hl] at h; simp at h
    | some data =>
      rw [hl] at h
      simp only [Option.map_eq_some'] at h
      obtain ⟨tl', htl', rfl⟩ := h
      cases j with
      | zero => simp
      | succ j' =>
        have hj' : j' < tl'.length := by simpa using hj
        have := ih (idx + 1) (clock + 10) tl' htl' j' hj'
        simp only [List.map_cons, List.getD_cons_succ]
        rw [this]
        ring

lemma check_trace_shape (fetched : CacheVal) (store : Option CacheVal)
    (outcomes : Nat → TweetOutcome) (t0 : Nat) :
    tweetTrace fetched store outcomes t0 = [] ∨
    ∃ cursnap paths tl, fetched = some cursnap ∧
      notifyLoop cursnap outcomes paths 0 t0 = some tl ∧
      tweetTrace fetched store outcomes t0 = tl := by
  by_cases he : (get_cache_difference store fetched).2.isEmpty
  · left; simp [tweetTrace, check_for_new_pr, he]
  · cases hf : (get_cache_difference store fetched).2.find?
        (fun e => containsSub "added" e.1) with
    | none => left; simp [tweetTrace, check_for_new_pr, he, hf]
    | some e =>
      cases ha : alookup "dictionary_item_added" (get_cache_difference store fetched).2 with
      | none => left; simp [tweetTrace, check_for_new_pr, he, hf, ha]
      | some paths =>
        cases fetched with
        | none => left; simp [tweetTrace, check_for_new_pr, he, hf, ha]
        | some cursnap =>
          cases hn : notifyLoop cursnap outcomes paths 0 t0 with
          | none => left; simp [tweetTrace, check_for_new_pr, he, hf, ha, hn]
          | some tl =>
            right
            exact ⟨cursnap, paths, tl, rfl, hn,
              by simp [tweetTrace, check_for_new_pr, he, hf, ha, hn]⟩

/-- C7: in every cycle that posts two or more tweets, each pair of consecutive
`post_tweet` calls is separated by at least 10 time units (the
`time.sleep(10)` of line 131 advances the clock by exactly 10 between
consecutive calls). -/
theorem tweets_spaced (fetched : CacheVal) (store : Option CacheVal)
    (outcomes : Nat → TweetOutcome) (t0 i : Nat)
    (h : i + 1 < (tweetTimes fetched store outcomes t0).length) :
    (tweetTimes fetched store outcomes t0).getD i 0 + 10 ≤
      (tweetTimes fetched store outcomes t0).getD (i + 1) 0 := by
  rcases check_trace_shape fetched store outcomes t0 with
    hnil | ⟨cursnap, paths, tl, hfe, hn, htr⟩
  · rw [tweetTimes, hnil] at h
    simp at h
  · have hti := notifyLoop_times cursnap outcomes paths 0 t0 tl hn
    rw [tweetTimes, htr] at h ⊢
    have hlen : (tl.map Prod.fst).length = tl.length := by simp
    rw [hlen] at h
    rw [hti i (by omega), hti (i + 1) h]
    omega

/-- Witness for C7: with an empty persisted snapshot and two fetched pull
requests, the two tweets of the cycle are posted 10 time units apart. -/
theorem tweets_spaced_witness :
    (tweetTimes (some [("1", PR_A), ("2", PR_B)]) (some (some []))
      (fun _ => TweetOutcome.success "ok") 0).getD 0 0 + 10 ≤
    (tweetTimes (some [("1", PR_A), ("2", PR_B)]) (some (some []))
      (fun _ => TweetOutcome.success "ok") 0).getD 1 0 :=
  tweets_spaced (some [("1", PR_A), ("2", PR_B)]) (some (some []))
    (fun _ => TweetOutcome.success "ok") 0 0 (by decide)

lemma notifyLoop_outcome_independent (cur : Snapshot)
    (o₁ o₂ : Nat → TweetOutcome) :
    ∀ (paths : List String) (idx₁ idx₂ clock : Nat),
    notifyLoop cur o₁ paths idx₁ clock = notifyLoop cur o₂ paths idx₂ clock := by
  intro paths
  induction paths with
  | nil => intros; rfl
  | cons p rest ih =>
    intro idx₁ idx₂ clock
    simp only [notifyLoop]
    cases alookup (parseIndex p) cur with
    | none => rfl
    | some data => simp [ih (idx₁ + 1) (idx₂ + 1) (clock + 10)]

/-- C8: any exception raised inside `post_tweet` (invalid data, auth failure,
rate limit, network error) makes it return `None`, and the notification loop
of `check_for_new_pr` discards that return value, so failures of individual
publishes do not abort the remaining notifications: the whole cycle's result
is independent of the per-call outcomes. -/
theorem publish_failures_isolated (m : String) :
    post_tweet (TweetOutcome.valueError m) = none ∧
    post_tweet (TweetOutcome.otherError m) = none ∧
    ∀ (fetched : CacheVal) (store : Option CacheVal)
      (o₁ o₂ : Nat → TweetOutcome) (t0 : Nat),
      check_for_new_pr fetched store o₁ t0 = check_for_new_pr fetched store o₂ t0 := by
  refine ⟨rfl, rfl, ?_⟩
  intro fetched store o₁ o₂ t0
  by_cases he : (get_cache_difference store fetched).2.isEmpty
  · simp [check_for_new_pr, he]
  · cases hf : (get_cache_difference store fetched).2.find?
        (fun e => containsSub "added" e.1) with
    | none => simp [check_for_new_pr, he, hf]
    | some e =>
      cases ha : alookup "dictionary_item_added" (get_cache_difference store fetched).2 with
      | none => simp [check_for_new_pr, he, hf, ha]
      | some paths =>
        cases fetched with
        | none => simp [check_for_new_pr, he, hf, ha]
        | some cursnap =>
          simp [check_for_new_pr, he, hf, ha,
            notifyLoop_outcome_independent cursnap o₁ o₂ paths 0 0 t0]

lemma replaceDel2_ident (a b : Char) : ∀ l, a ∉ l → replaceDel2 a b l = l := by
  intro l
  induction l with
  | nil => intro; rfl
  | cons c tail ih =>
    intro h
    cases tail with
    | nil => rfl
    | cons d rest =>
      have hca : ¬(c = a) := fun hc => h (by simp [hc])
      have htl : a ∉ d :: rest := fun hm => h (List.mem_cons_of_mem _ hm)
      simp only [replaceDel2]
      rw [if_neg (by simp [hca]), ih htl]

lemma replaceDel2_strip (a b : Char) :
    ∀ l, (∀ c ∈ l, c ≠ a) → replaceDel2 a b (l ++ [a, b]) = l := by
  intro l
  induction l with
  | nil => intro; simp [replaceDel2]
  | cons c tail ih =>
    intro h
    have hca : ¬(c = a) := h c (List.mem_cons_self c tail)
    have htl : ∀ x ∈ tail, x ≠ a := fun x hx => h x (List.mem_cons_of_mem _ hx)
    cases tail with
    | nil => simp [replaceDel2, hca]
    | cons d rest =>
      simp only [List.cons_append, replaceDel2]
      rw [if_neg (by simp [hca])]
      have := ih htl
      simp only [List.cons_append, List.append_eq] at this
      simp only [List.append_eq]
      rw [this]

lemma strip_diffPath (id : String) :
    stripChars ['r', 'o', 't'] (diffPath id).data =
      '[' :: '\'' :: (id.data ++ ['\'', ']']) := by
  have h1 : "root['".data = ['r', 'o', 'o', 't', '[', '\''] := rfl
  have h2 : "']".data = ['\'', ']'] := rfl
  have hd : (diffPath id).data =
      'r' :: 'o' :: 'o' :: 't' :: '[' :: '\'' :: (id.data ++ ['\'', ']']) := by
    rw [diffPath, String.data_append, String.data_append, h1, h2]
    simp
  rw [stripChars, hd]
  rw [List.dropWhile_cons, if_pos (by decide), List.dropWhile_cons, if_pos (by decide),
      List.dropWhile_cons, if_pos (by decide), List.dropWhile_cons, if_pos (by decide),
      List.dropWhile_cons, if_neg (by decide)]
  rw [show ('[' :: '\'' :: (id.data ++ ['\'', ']'])).reverse =
      ']' :: '\'' :: (id.data.reverse ++ ['\'', '[']) from by simp]
  rw [List.dropWhile_cons, if_neg (by decide)]
  simp

lemma alookup_of_mem {β : Type} {l : List (String × β)} {k : String} {v : β}
    (hnd : (l.map Prod.fst).Nodup) (hm : (k, v) ∈ l) : alookup k l = some v := by
  induction l with
  | nil => simp at hm
  | cons x rest ih =>
    obtain ⟨k', v'⟩ := x
    simp only [List.map_cons, List.nodup_cons] at hnd
    rcases List.mem_cons.mp hm with heq | hmem
    · injection heq with h1 h2
      subst h1
      subst h2
      simp [alookup]
    · by_cases hk : k' = k
      · exfalso
        apply hnd.1
        rw [hk]
        exact List.mem_map.mpr ⟨(k, v), hmem, rfl⟩
      · simp only [alookup]
        rw [if_neg hk]
        exact ih hnd.2 hmem

/-- C10: for every added-entry DeepDiff path `root['<id>']` where `<id>` is a
string of decimal digits, the orchestrator's string pipeline
(`strip('root')` followed by the two `replace` calls) recovers exactly `<id>`,
so indexing the freshly fetched snapshot passes precisely the newly added
pull request's record to the notifier. -/
theorem parseIndex_recovers_key (id : String)
    (hdig : ∀ c ∈ id.data, c.isDigit = true) :
    parseIndex (diffPath id) = id ∧
    ∀ (cur : Snapshot) (r : PRRecord), (skeys cur).Nodup → (id, r) ∈ cur →
      alookup (parseIndex (diffPath id)) cur = some r := by
  have hne : ∀ c ∈ id.data, c ≠ '[' ∧ c ≠ '\'' := by
    intro c hc
    have hd := hdig c hc
    constructor
    · intro he; rw [he] at hd; simp [Char.isDigit] at hd
    · intro he; rw [he] at hd; simp [Char.isDigit] at hd
  have hmain : parseIndex (diffPath id) = id := by
    rw [parseIndex, strip_diffPath]
    rw [show replaceDel2 '[' '\'' ('[' :: '\'' :: (id.data ++ ['\'', ']'])) =
        replaceDel2 '[' '\'' (id.data ++ ['\'', ']']) from by
      simp [replaceDel2]]
    rw [replaceDel2_ident '[' '\'' (id.data ++ ['\'', ']']) (by
      intro hm
      rcases List.mem_append.mp hm with h | h
      · exact (hne _ h).1 rfl
      · simp at h)]
    rw [replaceDel2_strip '\'' ']' id.data (fun c hc => (hne c hc).2)]
  refine ⟨hmain, fun cur r hnd hm => ?_⟩
  rw [hmain]
  exact alookup_of_mem hnd hm

/-- Witness for C10 at id "123": the pipeline recovers "123" from
`root['123']` and indexing the snapshot `{123: PR_A}` with the recovered key
yields PR_A. -/
theorem parseIndex_recovers_key_witness :
    parseIndex (diffPath "123") = "123" ∧
    alookup (parseIndex (diffPath "123")) [("123", PR_A)] = some PR_A :=
  ⟨(parseIndex_recovers_key "123" (by decide)).1,
    (parseIndex_recovers_key "123" (by decide)).2 [("123", PR_A)] PR_A
      (by decide) (by decide)⟩

/-- Escaping done by `json.dumps` for the characters our records may contain:
a double quote and a backslash are backslash-escaped, every other character is
emitted as itself. (Python additionally `\u`-escapes control and non-ASCII
characters; snapshot data is ASCII and the model emits such characters
verbatim, which round-trips the same way.) -/
def escChar (c : Char) : List Char :=
  if c = '"' then ['\\', '"'] else if c = '\\' then ['\\', '\\'] else [c]

/-- Escape a whole string body. -/
def escString : List Char → List Char
  | [] => []
  | c :: rest => escChar c ++ escString rest

/-- A JSON string token: opening quote, escaped body, closing quote. -/
def qstr (s : String) : List Char := '"' :: (escString s.data ++ ['"'])

/-- Big-endian decimal digits of `n`, with explicit fuel so that the
definition reduces in the kernel; `natDigitsBE` supplies ample fuel. -/
def natDigitsBEAux : Nat → Nat → List Nat
  | 0, _ => []
  | fuel + 1, n => if n < 10 then [n] else natDigitsBEAux fuel (n / 10) ++ [n % 10]

/-- Big-endian decimal digits of `n` (`[n]` itself when `n < 10`). -/
def natDigitsBE (n : Nat) : List Nat := natDigitsBEAux (n + 1) n

/-- Decimal digit to its character. -/
def digitChar (d : Nat) : Char := Char.ofNat (48 + d)

/-- Decimal rendering of a natural, as `str` and `json.dumps` print it. -/
def printNat (n : Nat) : List Char := (natDigitsBE n).map digitChar

/-- Decimal rendering of an integer (minus sign for negatives). -/
def printInt (i : Int) : List Char :=
  if i < 0 then '-' :: printNat (-i).toNat else printNat i.toNat

/-- Four-space indentation unit of `json.dump(..., indent=4)`. -/
def ind4 : List Char := [' ', ' ', ' ', ' ']

/-- Eight spaces: indentation of record fields (nesting depth 2). -/
def ind8 : List Char := ind4 ++ ind4

/-- One record object as `json.dump(..., indent=4)` writes it at nesting
depth 1. The field order is alphabetical (author, created_at, number, title,
url) because `pull_requests` rebuilds the snapshot via
`json.loads(json.dumps(prs, sort_keys=True))`, so the dict saved by
`save_data_to_cache` holds its fields in sorted insertion order. -/
def printRecord (r : PRRecord) : List Char :=
  ['{', '\n'] ++
  ind8 ++ qstr "author" ++ [':', ' '] ++ qstr r.author ++ [',', '\n'] ++
  ind8 ++ qstr "created_at" ++ [':', ' '] ++ qstr r.created_at ++ [',', '\n'] ++
  ind8 ++ qstr "number" ++ [':', ' '] ++ printInt r.number ++ [',', '\n'] ++
  ind8 ++ qstr "title" ++ [':', ' '] ++ qstr r.title ++ [',', '\n'] ++
  ind8 ++ qstr "url" ++ [':', ' '] ++ qstr r.url ++ ['\n'] ++
  ind4 ++ ['}']

/-- The snapshot's entries, each at depth 1, separated by `",\n"`. -/
def printEntries : Snapshot → List Char
  | [] => []
  | [(k, r)] => ind4 ++ qstr k ++ [':', ' '] ++ printRecord r
  | (k, r) :: rest =>
    ind4 ++ qstr k ++ [':', ' '] ++ printRecord r ++ [',', '\n'] ++
      printEntries rest

/-- The exact file content `json.dump(data, cache, indent=4)` writes for a
snapshot: `{}` when empty, otherwise the entries between `{\n` and `\n}`. -/
def dumpSnapshot (s : Snapshot) : List Char :=
  match s with
  | [] => ['{', '}']
  | _ => '{' :: '\n' :: (printEntries s ++ ['\n', '}'])

/-- CacheManager.save_data_to_cache on a filesystem mapping filenames to file
contents: overwrite `filename` with the serialized snapshot. -/
def save_data_to_cache (fs : String → Option String) (filename : String)
    (data : Snapshot) : String → Option String :=
  fun f => if f = filename then some (String.mk (dumpSnapshot data)) else fs f

/-- JSON whitespace. -/
def isWs (c : Char) : Bool := c = ' ' || c = '\n' || c = '\t' || c = '\r'

/-- Skip insignificant whitespace, as `json.load` does between tokens. -/
def skipWs (l : List Char) : List Char := l.dropWhile isWs

/-- String-body scanner of the JSON reader: consume characters until the
closing quote, resolving `\"` and `\\` escapes (the two escapes the writer
emits). Returns the body and the input after the closing quote. -/
def parseStrAux : List Char → Option (List Char × List Char)
  | [] => none
  | [c] => if c = '"' then some ([], []) else none
  | c :: d :: rest =>
    if c = '"' then some ([], d :: rest)
    else if c = '\\' then
      if d = '"' || d = '\\' then
        (parseStrAux rest).map (fun p => (d :: p.1, p.2))
      else none
    else (parseStrAux (d :: rest)).map (fun p => (c :: p.1, p.2))

/-- A JSON string token: an opening quote followed by a scanned body. -/
def parseQStr (l : List Char) : Option (String × List Char) :=
  match l with
  | [] => none
  | c :: rest =>
    if c = '"' then (parseStrAux rest).map (fun p => (String.mk p.1, p.2))
    else none

/-- Numeric value of a digit character. -/
def digitVal (c : Char) : Nat := c.toNat - 48

/-- A maximal run of decimal digits, folded into a natural. -/
def parseNat (l : List Char) : Option (Nat × List Char) :=
  let ds := l.takeWhile Char.isDigit
  if ds.isEmpty then none
  else some (ds.foldl (fun a c => 10 * a + digitVal c) 0, l.dropWhile Char.isDigit)

/-- A JSON integer: optional minus sign, then digits. -/
def parseInt (l : List Char) : Option (Int × List Char) :=
  match l with
  | [] => none
  | c :: rest =>
    if c = '-' then (parseNat rest).map (fun p => (-(p.1 : Int), p.2))
    else (parseNat l).map (fun p => ((p.1 : Int), p.2))

/-- Expect one specific character. -/
def expectChar (c : Char) (l : List Char) : Option (List Char) :=
  match l with
  | [] => none
  | x :: rest => if x = c then some rest else none

/-- A field key of the given name followed by a colon; the typed reading of
`json.load` for a record of known shape. -/
def parseKeyColon (name : String) (l : List Char) : Option (List Char) := do
  let (k, l1) ← parseQStr (skipWs l)
  if k = name then expectChar ':' (skipWs l1) else none

/-- A named string-valued field. -/
def parseStrField (name : String) (l : List Char) :
    Option (String × List Char) := do
  let l1 ← parseKeyColon name l
  parseQStr (skipWs l1)

/-- A named integer-valued field. -/
def parseIntField (name : String) (l : List Char) :
    Option (Int × List Char) := do
  let l1 ← parseKeyColon name l
  parseInt (skipWs l1)

/-- One record object: the five fields in the order the writer emits them. -/
def parseRecord (l : List Char) : Option (PRRecord × List Char) := do
  let l0 ← expectChar '{' (skipWs l)
  let (author, l1) ← parseStrField "author" l0
  let l1b ← expectChar ',' (skipWs l1)
  let (created, l2) ← parseStrField "created_at" l1b
  let l2b ← expectChar ',' (skipWs l2)
  let (number, l3) ← parseIntField "number" l2b
  let l3b ← expectChar ',' (skipWs l3)
  let (title, l4) ← parseStrField "title" l3b
  let l4b ← expectChar ',' (skipWs l4)
  let (url, l5) ← parseStrField "url" l4b
  let l5b ← expectChar '}' (skipWs l5)
  some (⟨title, number, url, author, created⟩, l5b)

/-- The entries of a nonempty snapshot object, after its opening brace:
key, colon, record, then either a comma and more entries or the closing
brace. `fuel` dominates the number of entries (each consumes input). -/
def parseEntries : Nat → List Char → Option (Snapshot × List Char)
  | 0, _ => none
  | fuel + 1, l => do
    let (k, l1) ← parseQStr (skipWs l)
    let l2 ← expectChar ':' (skipWs l1)
    let (r, l3) ← parseRecord l2
    match skipWs l3 with
    | [] => none
    | c :: l4 =>
      if c = ',' then (parseEntries fuel l4).map (fun p => ((k, r) :: p.1, p.2))
      else if c = '}' then some ([(k, r)], l4)
      else none

/-- A snapshot object: `{}` or brace-delimited entries. -/
def parseSnapshot (l : List Char) : Option (Snapshot × List Char) :=
  match skipWs l with
  | [] => none
  | c :: rest =>
    if c = '{' then
      match skipWs rest with
      | [] => none
      | c2 :: rest2 =>
        if c2 = '}' then some ([], rest2)
        else parseEntries (rest.length + 1) rest
    else none

/-- CacheManager.load_data_from_cache: read the file and parse its JSON
content (the typed reading of `json.load` for the snapshot grammar); `none`
models both a missing file (`FileNotFoundError`) and unparsable content
(`json.JSONDecodeError`). -/
def load_data_from_cache (fs : String → Option String) (filename : String) :
    Option Snapshot := do
  let content ← fs filename
  let (s, rest) ← parseSnapshot content.data
  if (skipWs rest).isEmpty then some s else none

set_option maxRecDepth 4000 in
example :
    load_data_from_cache
      (save_data_to_cache (fun _ => none) "../data/pull_requests.json"
        [("1", PR_A), ("2", ⟨"say \"hi\" \\ bye", 7, "u", "a", "c"⟩)])
      "../data/pull_requests.json" =
    some [("1", PR_A), ("2", ⟨"say \"hi\" \\ bye", 7, "u", "a", "c"⟩)] := by
  decide

example :
    load_data_from_cache
      (save_data_to_cache (fun _ => none) "f" []) "f" = some [] := by decide

lemma skipWs_newline_cons (l : List Char) : skipWs ('\n' :: l) = skipWs l := rfl

lemma skipWs_space_cons (l : List Char) : skipWs (' ' :: l) = skipWs l := rfl

lemma parseStrAux_round (s : List Char) (rest : List Char) :
    parseStrAux (escString s ++ '"' :: rest) = some (s, rest) := by
  induction s with
  | nil =>
    cases rest with
    | nil => simp [escString, parseStrAux]
    | cons x xs => simp [escString, parseStrAux]
  | cons c cs ih =>
    obtain ⟨d, tail, hdt⟩ :
        ∃ d tail, escString cs ++ '"' :: rest = d :: tail := by
      cases hcs : escString cs with
      | nil => exact ⟨'"', rest, by simp⟩
      | cons x xs => exact ⟨x, xs ++ '"' :: rest, by simp⟩
    by_cases hq : c = '"'
    · subst hq
      rw [show escString ('"' :: cs) ++ '"' :: rest =
          '\\' :: '"' :: (escString cs ++ '"' :: rest) from by
        simp [escString, escChar]]
      simp [parseStrAux, ih]
    · by_cases hb : c = '\\'
      · subst hb
        rw [show escString ('\\' :: cs) ++ '"' :: rest =
            '\\' :: '\\' :: (escString cs ++ '"' :: rest) from by
          simp [escString, escChar]]
        simp [parseStrAux, ih]
      · rw [show escString (c :: cs) ++ '"' :: rest = c :: d :: tail from by
          rw [← hdt]
          simp [escString, escChar, hq, hb]]
        simp only [parseStrAux, if_neg hq, if_neg hb]
        rw [← hdt, ih]
        rfl

lemma parseQStr_round (s : String) (rest : List Char) :
    parseQStr (qstr s ++ rest) = some (s, rest) := by
  have h : qstr s ++ rest = '"' :: (escString s.data ++ '"' :: rest) := by
    simp [qstr]
  rw [h]
  simp [parseQStr, parseStrAux_round]

lemma natDigitsBEAux_spec :
    ∀ fuel n, n < fuel →
      (natDigitsBEAux fuel n).foldl (fun a d => 10 * a + d) 0 = n ∧
      (∀ d ∈ natDigitsBEAux fuel n, d < 10) ∧
      natDigitsBEAux fuel n ≠ [] := by
  intro fuel
  induction fuel with
  | zero => intro n hn; omega
  | succ fuel ih =>
    intro n hn
    by_cases h10 : n < 10
    · simp [natDigitsBEAux, h10]
    · have hpos : 0 < n := by omega
      have hdiv : n / 10 < n := Nat.div_lt_self hpos (by omega)
      have hlt : n / 10 < fuel := by omega
      obtain ⟨hval, hdig, hne⟩ := ih (n / 10) hlt
      refine ⟨?_, ?_, ?_⟩
      · simp [natDigitsBEAux, h10, List.foldl_append, hval]
        omega
      · intro d hd
        simp [natDigitsBEAux, h10] at hd
        rcases hd with hd | hd
        · exact hdig d hd
        · omega
      · simp [natDigitsBEAux, h10]
  
lemma isDigit_digitChar (d : Nat) (h : d < 10) : (digitChar d).isDigit = true := by
  interval_cases d <;> decide

lemma digitVal_digitChar (d : Nat) (h : d < 10) : digitVal (digitChar d) = d := by
  interval_cases d <;> decide

lemma foldl_map_digitChar (ds : List Nat) (h : ∀ d ∈ ds, d < 10) :
    ∀ a, (ds.map digitChar).foldl (fun x c => 10 * x + digitVal c) a =
      ds.foldl (fun x d => 10 * x + d) a := by
  induction ds with
  | nil => intro a; rfl
  | cons d rest ih =>
    intro a
    have hd : d < 10 := h d (List.mem_cons_self d rest)
    have hr : ∀ x ∈ rest, x < 10 := fun x hx => h x (List.mem_cons_of_mem _ hx)
    simp only [List.map_cons, List.foldl_cons, digitVal_digitChar d hd]
    exact ih hr (10 * a + d)

/-- The first character, when any, fails the predicate. -/
def headNot (p : Char → Bool) : List Char → Prop
  | [] => True
  | c :: _ => p c = false

lemma takeWhile_append_all (p : Char → Bool) (l₁ l₂ : List Char)
    (h1 : ∀ c ∈ l₁, p c = true) (h2 : headNot p l₂) :
    (l₁ ++ l₂).takeWhile p = l₁ ∧ (l₁ ++ l₂).dropWhile p = l₂ := by
  induction l₁ with
  | nil =>
    cases l₂ with
    | nil => simp
    | cons c r =>
      simp only [headNot] at h2
      simp [List.takeWhile_cons, List.dropWhile_cons, h2]
  | cons c r ih =>
    have hc : p c = true := h1 c (List.mem_cons_self c r)
    have hr : ∀ x ∈ r, p x = true := fun x hx => h1 x (List.mem_cons_of_mem _ hx)
    obtain ⟨ht, hd⟩ := ih hr
    simp [List.takeWhile_cons, List.dropWhile_cons, hc, ht, hd]

lemma printNat_digits (n : Nat) : ∀ c ∈ printNat n, c.isDigit = true := by
  intro c hc
  obtain ⟨d, hd, rfl⟩ := List.mem_map.mp hc
  exact isDigit_digitChar d ((natDigitsBEAux_spec (n + 1) n (by omega)).2.1 d hd)

lemma printNat_ne_nil (n : Nat) : printNat n ≠ [] := by
  intro h
  have := (natDigitsBEAux_spec (n + 1) n (by omega)).2.2
  simp [printNat, natDigitsBE] at h
  exact this h

lemma parseNat_round (n : Nat) (rest : List Char) (h : headNot Char.isDigit rest) :
    parseNat (printNat n ++ rest) = some (n, rest) := by
  obtain ⟨ht, hd⟩ := takeWhile_append_all Char.isDigit (printNat n) rest
    (printNat_digits n) h
  obtain ⟨hval, hdig, _⟩ := natDigitsBEAux_spec (n + 1) n (by omega)
  simp only [parseNat, ht, hd]
  rw [if_neg (by simp [printNat_ne_nil n])]
  rw [show (printNat n).foldl (fun a c => 10 * a + digitVal c) 0 = n from by
    rw [printNat, natDigitsBE, foldl_map_digitChar _ hdig 0]
    exact hval]

lemma digit_not_dash (c : Char) (h : c.isDigit = true) : ¬(c = '-') := by
  intro he
  rw [he] at h
  simp [Char.isDigit] at h

lemma parseInt_round (i : Int) (rest : List Char) (h : headNot Char.isDigit rest) :
    parseInt (printInt i ++ rest) = some (i, rest) := by
  by_cases hneg : i < 0
  · have hto : (((-i).toNat : Nat) : Int) = -i := Int.toNat_of_nonneg (by omega)
    simp only [printInt, if_pos hneg, List.cons_append, parseInt]
    rw [if_pos trivial]
    rw [parseNat_round _ _ h]
    simp [hto]
  · have hto : ((i.toNat : Nat) : Int) = i := Int.toNat_of_nonneg (by omega)
    simp only [printInt, if_neg hneg]
    cases hp : printNat i.toNat with
    | nil => exact absurd hp (printNat_ne_nil _)
    | cons c cs =>
      have hcdig : c.isDigit = true := by
        apply printNat_digits i.toNat
        rw [hp]
        exact List.mem_cons_self c cs
      simp only [List.cons_append, parseInt]
      rw [if_neg (digit_not_dash c hcdig)]
      rw [show c :: (cs ++ rest) = printNat i.toNat ++ rest from by rw [hp]; rfl]
      rw [parseNat_round _ _ h]
      simp [hto]

lemma skipWs_not (c : Char) (h : isWs c = false) (l : List Char) :
    skipWs (c :: l) = c :: l := by
  simp [skipWs, List.dropWhile_cons, h]

lemma expectChar_same (c : Char) (l : List Char) :
    expectChar c (c :: l) = some l := by
  simp [expectChar]

lemma qstr_cons (s : String) (R : List Char) :
    qstr s ++ R = '"' :: (escString s.data ++ ('"' :: R)) := by
  simp [qstr]

lemma digit_not_ws (c : Char) (h : c.isDigit = true) : isWs c = false := by
  simp only [isWs, Bool.or_eq_false_iff, decide_eq_false_iff_not]
  refine ⟨⟨⟨?_, ?_⟩, ?_⟩, ?_⟩ <;>
    · intro he; rw [he] at h; simp [Char.isDigit] at h

lemma printInt_ne_nil (i : Int) : printInt i ≠ [] := by
  by_cases hneg : i < 0
  · simp [printInt, hneg]
  · simp only [printInt, if_neg hneg]
    exact printNat_ne_nil _

lemma printInt_chars_not_ws (i : Int) : ∀ c ∈ printInt i, isWs c = false := by
  intro c hc
  by_cases hneg : i < 0
  · simp only [printInt, if_pos hneg, List.mem_cons] at hc
    rcases hc with hc | hc
    · subst hc; decide
    · exact digit_not_ws c (printNat_digits _ c hc)
  · simp only [printInt, if_neg hneg] at hc
    exact digit_not_ws c (printNat_digits _ c hc)

lemma skipWs_append_solid (l R : List Char) (hne : l ≠ [])
    (hc : ∀ c ∈ l, isWs c = false) : skipWs (l ++ R) = l ++ R := by
  cases l with
  | nil => exact absurd rfl hne
  | cons c cs =>
    rw [List.cons_append]
    exact skipWs_not c (hc c (List.mem_cons_self c cs)) _

lemma parseKeyColon_step (name : String) (V : List Char) :
    parseKeyColon name ('\n' :: (ind8 ++ (qstr name ++ ':' :: ' ' :: V))) =
      some (' ' :: V) := by
  have h1 : skipWs ('\n' :: (ind8 ++ (qstr name ++ ':' :: ' ' :: V))) =
      qstr name ++ ':' :: ' ' :: V := by
    rw [qstr_cons]
    rfl
  simp only [parseKeyColon, h1, parseQStr_round, Option.bind_eq_bind,
    Option.some_bind]
  rw [if_pos trivial]
  rw [skipWs_not ':' (by decide), expectChar_same]

lemma parseStrField_step (name v : String) (X : List Char) :
    parseStrField name
      ('\n' :: (ind8 ++ (qstr name ++ ':' :: ' ' :: (qstr v ++ X)))) =
      some (v, X) := by
  simp only [parseStrField, parseKeyColon_step, Option.bind_eq_bind,
    Option.some_bind]
  have h2 : skipWs (' ' :: (qstr v ++ X)) = qstr v ++ X := by
    rw [qstr_cons]
    rfl
  rw [h2, parseQStr_round]

lemma parseIntField_step (name : String) (i : Int) (X : List Char) :
    parseIntField name
      ('\n' :: (ind8 ++ (qstr name ++ ':' :: ' ' ::
        (printInt i ++ (',' :: X))))) = some (i, ',' :: X) := by
  simp only [parseIntField, parseKeyColon_step, Option.bind_eq_bind,
    Option.some_bind]
  have h2 : skipWs (' ' :: (printInt i ++ (',' :: X))) =
      printInt i ++ (',' :: X) := by
    rw [skipWs_space_cons]
    exact skipWs_append_solid _ _ (printInt_ne_nil i) (printInt_chars_not_ws i)
  rw [h2, parseInt_round i (',' :: X) (by simp [headNot])]

lemma parseRecord_round (r : PRRecord) (rest : List Char) :
    parseRecord (printRecord r ++ rest) = some (r, rest) := by
  simp only [printRecord, List.cons_append, List.append_assoc, List.nil_append]
  simp only [parseRecord]
  rw [skipWs_not '{' (by decide), expectChar_same]
  simp only [Option.bind_eq_bind, Option.some_bind]
  rw [parseStrField_step]
  simp only [Option.some_bind]
  rw [skipWs_not ',' (by decide), expectChar_same]
  simp only [Option.some_bind]
  rw [parseStrField_step]
  simp only [Option.some_bind]
  rw [skipWs_not ',' (by decide), expectChar_same]
  simp only [Option.some_bind]
  rw [parseIntField_step]
  simp only [Option.some_bind]
  rw [skipWs_not ',' (by decide), expectChar_same]
  simp only [Option.some_bind]
  rw [parseStrField_step]
  simp only [Option.some_bind]
  rw [skipWs_not ',' (by decide), expectChar_same]
  simp only [Option.some_bind]
  rw [parseStrField_step]
  simp only [Option.some_bind]
  rw [show skipWs ('\n' :: (ind4 ++ '}' :: rest)) = '}' :: rest from rfl]
  rw [expectChar_same]
  simp only [Option.some_bind]

lemma parseRecord_congr (l₁ l₂ : List Char) (h : skipWs l₁ = skipWs l₂) :
    parseRecord l₁ = parseRecord l₂ := by
  simp only [parseRecord, h]

lemma parseEntries_congr (fuel : Nat) (l₁ l₂ : List Char)
    (h : skipWs l₁ = skipWs l₂) :
    parseEntries fuel l₁ = parseEntries fuel l₂ := by
  cases fuel with
  | zero => rfl
  | succ f => simp only [parseEntries, h]

lemma parseEntries_round :
    ∀ (entries : Snapshot) (rest : List Char) (fuel : Nat), entries ≠ [] →
      entries.length < fuel →
      parseEntries fuel (printEntries entries ++ '\n' :: '}' :: rest) =
        some (entries, rest) := by
  intro entries
  induction entries with
  | nil => intro rest fuel hne _; exact absurd rfl hne
  | cons hd tl ih =>
    intro rest fuel _ hlen
    obtain ⟨k, r⟩ := hd
    cases fuel with
    | zero => simp at hlen
    | succ f =>
      cases tl with
      | nil =>
        simp only [printEntries, List.cons_append, List.append_assoc,
          List.nil_append]
        simp only [parseEntries]
        have h1 : skipWs (ind4 ++ (qstr k ++ ':' :: ' ' ::
            (printRecord r ++ '\n' :: '}' :: rest))) =
            qstr k ++ ':' :: ' ' :: (printRecord r ++ '\n' :: '}' :: rest) := by
          rw [qstr_cons]
          rfl
        rw [h1, parseQStr_round]
        simp only [Option.bind_eq_bind, Option.some_bind]
        rw [skipWs_not ':' (by decide), expectChar_same]
        simp only [Option.some_bind]
        rw [parseRecord_congr (' ' :: (printRecord r ++ '\n' :: '}' :: rest))
          (printRecord r ++ '\n' :: '}' :: rest) (skipWs_space_cons _)]
        rw [parseRecord_round]
        simp only [Option.some_bind]
        rw [show skipWs ('\n' :: '}' :: rest) = '}' :: rest from rfl]
        simp
      | cons hd2 tl2 =>
        simp only [printEntries, List.cons_append, List.append_assoc,
          List.nil_append]
        simp only [parseEntries]
        have h1 : skipWs (ind4 ++ (qstr k ++ ':' :: ' ' ::
            (printRecord r ++ ',' :: '\n' ::
              (printEntries (hd2 :: tl2) ++ '\n' :: '}' :: rest)))) =
            qstr k ++ ':' :: ' ' :: (printRecord r ++ ',' :: '\n' ::
              (printEntries (hd2 :: tl2) ++ '\n' :: '}' :: rest)) := by
          rw [qstr_cons]
          rfl
        rw [h1, parseQStr_round]
        simp only [Option.bind_eq_bind, Option.some_bind]
        rw [skipWs_not ':' (by decide), expectChar_same]
        simp only [Option.some_bind]
        rw [parseRecord_congr (' ' :: (printRecord r ++ ',' :: '\n' ::
            (printEntries (hd2 :: tl2) ++ '\n' :: '}' :: rest)))
          (printRecord r ++ ',' :: '\n' ::
            (printEntries (hd2 :: tl2) ++ '\n' :: '}' :: rest))
          (skipWs_space_cons _)]
        rw [parseRecord_round]
        simp only [Option.some_bind]
        rw [skipWs_not ',' (by decide)]
        simp only [if_pos]
        rw [parseEntries_congr f
          ('\n' :: (printEntries (hd2 :: tl2) ++ '\n' :: '}' :: rest))
          (printEntries (hd2 :: tl2) ++ '\n' :: '}' :: rest)
          (skipWs_newline_cons _)]
        rw [ih rest f (by simp) (by simp at hlen ⊢; omega)]
        simp

lemma printEntries_length_ge :
    ∀ entries : Snapshot, entries.length ≤ (printEntries entries).length := by
  intro entries
  induction entries with
  | nil => simp [printEntries]
  | cons hd tl ih =>
    obtain ⟨k, r⟩ := hd
    cases tl with
    | nil => simp [printEntries, ind4]
    | cons hd2 tl2 =>
      simp only [printEntries, List.length_append, List.length_cons,
        List.length_nil] at *
      simp [ind4]
      omega

lemma printEntries_cons_shape (hd : String × PRRecord) (tl : List (String × PRRecord)) :
    ∃ Z, printEntries (hd :: tl) = ind4 ++ (qstr hd.1 ++ Z) := by
  obtain ⟨k, r⟩ := hd
  cases tl with
  | nil =>
    exact ⟨':' :: ' ' :: printRecord r, by
      simp [printEntries, List.append_assoc]⟩
  | cons hd2 tl2 =>
    exact ⟨':' :: ' ' :: (printRecord r ++ ',' :: '\n' ::
        printEntries (hd2 :: tl2)), by
      simp [printEntries, List.append_assoc]⟩

lemma parseSnapshot_round (s : Snapshot) :
    parseSnapshot (dumpSnapshot s) = some (s, []) := by
  cases s with
  | nil => rfl
  | cons hd tl =>
    obtain ⟨Z, hZ⟩ := printEntries_cons_shape hd tl
    have hM : skipWs ('\n' :: (printEntries (hd :: tl) ++ ['\n', '}'])) =
        '"' :: (escString hd.1.data ++ '"' :: (Z ++ ['\n', '}'])) := by
      rw [hZ]
      simp only [qstr, List.append_assoc, List.cons_append, List.nil_append]
      rfl
    have hlen : (hd :: tl).length <
        ('\n' :: (printEntries (hd :: tl) ++ ['\n', '}'])).length + 1 := by
      have := printEntries_length_ge (hd :: tl)
      simp only [List.length_cons, List.length_append] at *
      omega
    simp only [dumpSnapshot, parseSnapshot, skipWs_not '{' (by decide), hM]
    rw [if_pos trivial, if_neg (by decide)]
    rw [parseEntries_congr _
      ('\n' :: (printEntries (hd :: tl) ++ ['\n', '}']))
      (printEntries (hd :: tl) ++ '\n' :: '}' :: [])
      (skipWs_newline_cons _)]
    exact parseEntries_round (hd :: tl) [] _ (by simp) hlen

/-- C9: loading the cache file immediately after saving a snapshot to it
returns exactly that snapshot: `load_data_from_cache` is a left inverse of
`save_data_to_cache` on every filesystem, filename and snapshot (the
`json.dump(-, indent=4)` / `json.load` pair round-trips the persisted JSON
object). -/
theorem cache_save_load_roundtrip (fs : String → Option String)
    (filename : String) (s : Snapshot) :
    load_data_from_cache (save_data_to_cache fs filename s) filename =
      some s := by
  simp only [load_data_from_cache, save_data_to_cache, Option.bind_eq_bind]
  rw [if_pos trivial]
  simp only [Option.some_bind]
  rw [parseSnapshot_round]
  simp [skipWs]
